import Mathlib

/-!
# Verification of the ordering buffer (`src/ordering_buffer.cpp`)

Shallow embedding of the `BlocksBuffer` class: a fixed-capacity circular
buffer that accepts out-of-order blocks (`AddBlock`), delivers them in
sequence order (`GetCurrentBlock`), and lets the consumer reposition the
delivery cursor (`SetCurrentBlocknum`).

Modelling decisions, read off the C++ source:

* A `Block` carries only its `int` sequence number, so blocks are modelled
  as `Int`.
* `buffer` is a `vector<pair<Block, int>>` of `(block, epoch)` slots,
  modelled as `List (Int × Int)`; the constructor fills it with
  `(Block(0), -1)`.
* `buffer_size` is an `unsigned int`; `b.number() / buffer_size` and
  `b.number() % buffer_size` are C++ `int`-by-`unsigned` operations: the
  `int` operand is first converted to `unsigned` (reduction mod 2^32), the
  unsigned result is then converted back to `int` for the `epoch`/`index`
  variables.  `cppDiv`/`cppMod` model exactly this.
* `GetCurrentBlock` returns `none` when the current slot's epoch does not
  match: in the sequential model that is the branch where the C++ code
  blocks on the condition variable (no producer can run, so it would wait
  forever).
-/

/-- 2^32, the modulus of C++ `unsigned int` arithmetic. -/
def uintMod : Nat := 4294967296

/-- C++ conversion from `int` to `unsigned int`: reduction modulo 2^32
(a negative value becomes its two's-complement unsigned value). -/
def toUnsigned (n : Int) : Nat := (n % (uintMod : Int)).toNat

/-- C++ conversion from `unsigned int` to `int` (modular, as on all
mainstream targets): values below 2^31 map to themselves, larger ones to
their value minus 2^32. -/
def toInt32 (n : Nat) : Int :=
  if n % uintMod < 2147483648 then ((n % uintMod : Nat) : Int)
  else ((n % uintMod : Nat) : Int) - (uintMod : Int)

/-- C++ `int / unsigned` as it appears in `b.number() / buffer_size`:
convert the `int` to unsigned, divide, convert the result back to `int`. -/
def cppDiv (a : Int) (b : Nat) : Int := toInt32 (toUnsigned a / b)

/-- C++ `int % unsigned` as it appears in `b.number() % buffer_size`. -/
def cppMod (a : Int) (b : Nat) : Int := toInt32 (toUnsigned a % b)

/-- State of a `BlocksBuffer` object: the capacity `buffer_size`, the slot
vector `buffer` (pairs `(block number, epoch)`), and the cursor
`current_blocknum`. -/
structure BlocksBuffer where
  buffer_size : Nat
  buffer : List (Int × Int)
  current_blocknum : Int
  deriving DecidableEq

/-- The constructor `BlocksBuffer(bsize)`: `buffer_size` slots, each
initialised to `(Block(0), -1)`, cursor at 0. -/
def BlocksBuffer.init (bsize : Nat) : BlocksBuffer :=
  { buffer_size := bsize
    buffer := List.replicate bsize ((0 : Int), (-1 : Int))
    current_blocknum := 0 }

/-- `BlocksBuffer::AddBlock(Block b)`: computes
`epoch = b.number() / buffer_size`, `index = b.number() % buffer_size`
(both `int`-by-`unsigned`) and stores `(b, epoch)` at `buffer[index]`.
Both branches of the C++ `if` perform the same write; they differ only in
locking and notification (see `addBlockSlotWriteLocked`). -/
def BlocksBuffer.AddBlock (st : BlocksBuffer) (b : Int) : BlocksBuffer :=
  let epoch := cppDiv b st.buffer_size
  let index := cppMod b st.buffer_size
  { st with buffer := st.buffer.set index.toNat (b, epoch) }

/-- Whether the slot write inside `AddBlock` is performed while holding
`current_slot_mutex`: true exactly in the `b.number() == current_blocknum`
branch (lines 73-77 of the source); the `else` branch (line 79) writes the
slot without acquiring any lock. -/
def BlocksBuffer.addBlockSlotWriteLocked (st : BlocksBuffer) (b : Int) : Bool :=
  b == st.current_blocknum

/-- The epoch `GetCurrentBlock` computes: `current_blocknum / buffer_size`
as C++ `int`-by-`unsigned` division. -/
def curEpoch (st : BlocksBuffer) : Int := cppDiv st.current_blocknum st.buffer_size

/-- The slot index `GetCurrentBlock` computes:
`current_blocknum % buffer_size` as C++ `int`-by-`unsigned` modulus. -/
def curIndex (st : BlocksBuffer) : Int := cppMod st.current_blocknum st.buffer_size

/-- `BlocksBuffer::GetCurrentBlock()`: if the slot at `curIndex` holds the
epoch `curEpoch`, return its block and increment `current_blocknum`.
Otherwise the C++ code waits on `current_slot_cv`; with no concurrent
producer that wait never ends, so the sequential model returns `none`
(`none` is also returned on an out-of-range slot access, which is
undefined behaviour in C++). -/
def BlocksBuffer.GetCurrentBlock (st : BlocksBuffer) : Option (Int × BlocksBuffer) :=
  match st.buffer[(curIndex st).toNat]? with
  | some slot =>
    if slot.2 = curEpoch st then
      some (slot.1, { st with current_blocknum := st.current_blocknum + 1 })
    else
      none
  | none => none

/-- `BlocksBuffer::SetCurrentBlocknum(int blocknum)`: overwrite the cursor
(under `current_blocknum_mutex` in the C++ code). -/
def BlocksBuffer.SetCurrentBlocknum (st : BlocksBuffer) (blocknum : Int) : BlocksBuffer :=
  { st with current_blocknum := blocknum }

/-- Submit a list of (natural) sequence numbers in order via `AddBlock`. -/
def submitListN (st : BlocksBuffer) (l : List Nat) : BlocksBuffer :=
  l.foldl (fun s k => s.AddBlock (k : Int)) st

/-- Perform `n` successive `GetCurrentBlock` calls, collecting the returned
block numbers; `none` if any call would block. -/
def consumeN (st : BlocksBuffer) : Nat → Option (List Int × BlocksBuffer)
  | 0 => some ([], st)
  | n + 1 =>
    match st.GetCurrentBlock with
    | some (b, st') =>
      match consumeN st' n with
      | some (l, st'') => some (b :: l, st'')
      | none => none
    | none => none

/-- A list of natural sequence numbers, read as `int` block numbers. -/
def intsOfNats (l : List Nat) : List Int := l.map Int.ofNat

/-- A slot at index `i` is either the constructor's default entry
`(Block(0), -1)` or the result of some `AddBlock` call for a nonnegative
sequence number `s` that maps to index `i`. -/
def SlotInv (cap i : Nat) (slot : Int × Int) : Prop :=
  slot = ((0 : Int), (-1 : Int)) ∨
    ∃ s : Int, 0 ≤ s ∧ toUnsigned s % cap = i ∧ slot = (s, cppDiv s cap)

/-- Buffer-wide invariant: every slot satisfies `SlotInv`. -/
def BufInv (st : BlocksBuffer) : Prop :=
  ∀ (i : Nat) (slot : Int × Int), st.buffer[i]? = some slot → SlotInv st.buffer_size i slot

/-! ## Arithmetic lemmas about the C++ `int`/`unsigned` conversions -/

theorem toUnsigned_ofNat (k : Nat) (h : k < uintMod) : toUnsigned (k : Int) = k := by
  unfold toUnsigned
  rw [Int.emod_eq_of_lt (Int.natCast_nonneg k) (by exact_mod_cast h)]
  exact Int.toNat_ofNat k

theorem toInt32_small (n : Nat) (h : n < 2147483648) : toInt32 n = (n : Int) := by
  unfold toInt32
  rw [Nat.mod_eq_of_lt (lt_trans h (by norm_num [uintMod]))]
  rw [if_pos h]

theorem cppMod_ofNat (k cap : Nat) (hk : k < uintMod) (h0 : 0 < cap)
    (hcap : cap ≤ 2147483648) :
    cppMod (k : Int) cap = ((k % cap : Nat) : Int) := by
  unfold cppMod
  rw [toUnsigned_ofNat k hk, toInt32_small _ (lt_of_lt_of_le (Nat.mod_lt k h0) hcap)]

theorem cppDiv_ofNat (k cap : Nat) (hk : k < 2147483648) :
    cppDiv (k : Int) cap = ((k / cap : Nat) : Int) := by
  unfold cppDiv
  rw [toUnsigned_ofNat k (lt_trans hk (by norm_num [uintMod])),
    toInt32_small _ (lt_of_le_of_lt (Nat.div_le_self k cap) hk)]

/-- For any `int` argument, the slot index `cppMod` yields is nonnegative
and, read as a `Nat`, equals the unsigned remainder, which is below the
capacity. -/
theorem cppMod_range (a : Int) (cap : Nat) (h0 : 0 < cap) (hcap : cap ≤ 2147483648) :
    0 ≤ cppMod a cap ∧ (cppMod a cap).toNat = toUnsigned a % cap ∧
      toUnsigned a % cap < cap := by
  have hlt : toUnsigned a % cap < cap := Nat.mod_lt _ h0
  have h := toInt32_small (toUnsigned a % cap) (lt_of_lt_of_le hlt hcap)
  unfold cppMod
  rw [h]
  exact ⟨Int.natCast_nonneg _, Int.toNat_ofNat _, hlt⟩

/-! ## Helper lemmas about the operations -/

theorem AddBlock_def (st : BlocksBuffer) (b : Int) :
    st.AddBlock b =
      { st with buffer :=
          st.buffer.set (cppMod b st.buffer_size).toNat (b, cppDiv b st.buffer_size) } := rfl

/-- Effect of `AddBlock` on a sequence number below the capacity: the slot
at that very index is overwritten with epoch 0. -/
theorem AddBlock_small (st : BlocksBuffer) (k : Nat) (hk : k < st.buffer_size)
    (hcap : st.buffer_size ≤ 2147483648) :
    st.AddBlock (k : Int) = { st with buffer := st.buffer.set k ((k : Int), 0) } := by
  have h0 : 0 < st.buffer_size := Nat.pos_of_ne_zero (by omega)
  have hk31 : k < 2147483648 := lt_of_lt_of_le hk hcap
  rw [AddBlock_def,
    cppMod_ofNat k _ (lt_trans hk31 (by norm_num [uintMod])) h0 hcap,
    cppDiv_ofNat k _ hk31,
    Nat.mod_eq_of_lt hk, Nat.div_eq_of_lt hk]
  simp

theorem AddBlock_current_blocknum (st : BlocksBuffer) (b : Int) :
    (st.AddBlock b).current_blocknum = st.current_blocknum := rfl

theorem AddBlock_buffer_size (st : BlocksBuffer) (b : Int) :
    (st.AddBlock b).buffer_size = st.buffer_size := rfl

theorem AddBlock_length (st : BlocksBuffer) (b : Int) :
    (st.AddBlock b).buffer.length = st.buffer.length := List.length_set ..

/-- When the current slot's epoch matches, `GetCurrentBlock` returns that
slot's block and advances the cursor by one, touching nothing else. -/
theorem GetCurrentBlock_hit (st : BlocksBuffer) (slot : Int × Int)
    (hget : st.buffer[(curIndex st).toNat]? = some slot)
    (heq : slot.2 = curEpoch st) :
    st.GetCurrentBlock =
      some (slot.1, { st with current_blocknum := st.current_blocknum + 1 }) := by
  unfold BlocksBuffer.GetCurrentBlock
  rw [hget]
  simp [heq]

/-- When the cursor holds a small natural value, the computed index is the
cursor itself and the computed epoch is 0. -/
theorem curIndex_curEpoch_small (st : BlocksBuffer) (j : Nat)
    (hj : st.current_blocknum = (j : Int)) (hlt : j < st.buffer_size)
    (hcap : st.buffer_size ≤ 2147483648) :
    (curIndex st).toNat = j ∧ curEpoch st = 0 := by
  have h0 : 0 < st.buffer_size := Nat.pos_of_ne_zero (by omega)
  have hk31 : j < 2147483648 := lt_of_lt_of_le hlt hcap
  constructor
  · unfold curIndex
    rw [hj, cppMod_ofNat j _ (lt_trans hk31 (by norm_num [uintMod])) h0 hcap,
      Nat.mod_eq_of_lt hlt]
    exact Int.toNat_ofNat j
  · unfold curEpoch
    rw [hj, cppDiv_ofNat j _ hk31, Nat.div_eq_of_lt hlt]
    rfl

theorem submitListN_shape (l : List Nat) : ∀ st : BlocksBuffer,
    (submitListN st l).current_blocknum = st.current_blocknum ∧
    (submitListN st l).buffer_size = st.buffer_size ∧
    (submitListN st l).buffer.length = st.buffer.length := by
  induction l with
  | nil => intro st; exact ⟨rfl, rfl, rfl⟩
  | cons x t ih =>
    intro st
    have h := ih (st.AddBlock (x : Int))
    refine ⟨h.1.trans rfl, h.2.1.trans rfl, h.2.2.trans ?_⟩
    exact AddBlock_length st (x : Int)

/-- After submitting a list of in-range sequence numbers, every index that
occurs in the list (or already held its own number at epoch 0) holds its
own number at epoch 0. -/
theorem submitListN_slots (l : List Nat) : ∀ (st : BlocksBuffer) (k : Nat),
    (∀ x ∈ l, x < st.buffer_size) →
    st.buffer_size ≤ 2147483648 →
    st.buffer.length = st.buffer_size →
    k < st.buffer_size →
    (k ∈ l ∨ st.buffer[k]? = some ((k : Int), 0)) →
    (submitListN st l).buffer[k]? = some ((k : Int), 0) := by
  induction l with
  | nil =>
    intro st k _ _ _ _ hk
    rcases hk with hk | hk
    · exact absurd hk (List.not_mem_nil k)
    · exact hk
  | cons x t ih =>
    intro st k hmem hcap hlen hk hdisj
    have hx : x < st.buffer_size := hmem x (List.mem_cons_self x t)
    have hstep : st.AddBlock (x : Int) = { st with buffer := st.buffer.set x ((x : Int), 0) } :=
      AddBlock_small st x hx hcap
    have hshape : (st.AddBlock (x : Int)).buffer_size = st.buffer_size := rfl
    have hlen' : (st.AddBlock (x : Int)).buffer.length = (st.AddBlock (x : Int)).buffer_size := by
      rw [AddBlock_length, hshape, hlen]
    have hgoal : (submitListN (st.AddBlock (x : Int)) t).buffer[k]? = some ((k : Int), 0) := by
      refine ih (st.AddBlock (x : Int)) k ?_ ?_ hlen' ?_ ?_
      · intro y hy
        exact hmem y (List.mem_cons_of_mem x hy)
      · exact hcap
      · exact hk
      · by_cases hkx : k = x
        · subst hkx
          right
          rw [hstep]
          exact List.getElem?_set_self (by rw [hlen]; exact hk)
        · rcases hdisj with hkl | hslot
          · left
            rcases List.mem_cons.mp hkl with h | h
            · exact absurd h hkx
            · exact h
          · right
            rw [hstep]
            rw [List.getElem?_set_ne (fun h => hkx h.symm)]
            exact hslot
    exact hgoal

/-- One successful `GetCurrentBlock` step extends a successful run of
`consumeN`. -/
theorem consumeN_succ (st st1 st2 : BlocksBuffer) (b : Int) (l : List Int) (n : Nat)
    (h1 : st.GetCurrentBlock = some (b, st1))
    (h2 : consumeN st1 n = some (l, st2)) :
    consumeN st (n + 1) = some (b :: l, st2) := by
  simp [consumeN, h1, h2]

/-- Running `count` consumes from a cursor at `j` over a buffer whose slots
`j, j+1, …, j+count-1` hold their own numbers at epoch 0 returns exactly
`j, j+1, …, j+count-1` and advances the cursor by `count`. -/
theorem consumeN_run (count : Nat) : ∀ (st : BlocksBuffer) (j : Nat),
    st.current_blocknum = (j : Int) →
    st.buffer.length = st.buffer_size →
    st.buffer_size ≤ 2147483648 →
    j + count ≤ st.buffer_size →
    (∀ i : Nat, j ≤ i → i < j + count → st.buffer[i]? = some ((i : Int), 0)) →
    consumeN st count = some (intsOfNats (List.range' j count),
      { st with current_blocknum := (j : Int) + count }) := by
  induction count with
  | zero =>
    intro st j hj _ _ _ _
    simp [consumeN, List.range', intsOfNats, ← hj]
  | succ n ih =>
    intro st j hj hlen hcap hle hslots
    have hjlt : j < st.buffer_size := by omega
    have hslotj := hslots j le_rfl (by omega)
    have hidx := curIndex_curEpoch_small st j hj hjlt hcap
    have hget : st.buffer[(curIndex st).toNat]? = some ((j : Int), 0) := by
      rw [hidx.1]; exact hslotj
    have hhit := GetCurrentBlock_hit st ((j : Int), 0) hget (by rw [hidx.2])
    have hst' : ({ st with current_blocknum := st.current_blocknum + 1 } :
        BlocksBuffer).current_blocknum = ((j + 1 : Nat) : Int) := by
      simp [hj]
    have hrec := ih { st with current_blocknum := st.current_blocknum + 1 } (j + 1)
      hst' hlen hcap (by show j + 1 + n ≤ st.buffer_size; omega)
      (fun i hi hi' => hslots i (by omega) (by omega))
    have hmain := consumeN_succ st _ _ _ _ n hhit hrec
    rw [hmain, List.range'_succ]
    have hcast : ((j + 1 : Nat) : Int) + (n : Int) = (j : Int) + ((n + 1 : Nat) : Int) := by
      push_cast
      ring
    simp [intsOfNats, hcast]
    ring

/-- A successful `GetCurrentBlock` changes nothing but the cursor, which it
advances by one. -/
theorem GetCurrentBlock_frame (st st' : BlocksBuffer) (x : Int)
    (h : st.GetCurrentBlock = some (x, st')) :
    st'.buffer = st.buffer ∧ st'.buffer_size = st.buffer_size ∧
      st'.current_blocknum = st.current_blocknum + 1 := by
  unfold BlocksBuffer.GetCurrentBlock at h
  cases hbuf : st.buffer[(curIndex st).toNat]? with
  | none =>
    simp only [hbuf] at h
    exact Option.noConfusion h
  | some slot =>
    simp only [hbuf] at h
    by_cases heq : slot.2 = curEpoch st
    · rw [if_pos heq] at h
      have h2 : st' = { st with current_blocknum := st.current_blocknum + 1 } :=
        (congrArg Prod.snd (Option.some.inj h)).symm
      rw [h2]
      exact ⟨rfl, rfl, rfl⟩
    · rw [if_neg heq] at h
      exact Option.noConfusion h

/-! ## The claims -/

/-- C2: whenever the slot at the index computed from `next_expected`
(`current_blocknum % buffer_size`, `int`-by-`unsigned`) has its epoch field
equal to `next_expected / buffer_size`, `GetCurrentBlock` returns that
slot's item without waiting, and the post-state cursor is the pre-state
cursor plus one, everything else unchanged. -/
theorem c2_immediate_hit (st : BlocksBuffer) (slot : Int × Int)
    (hget : st.buffer[(curIndex st).toNat]? = some slot)
    (heq : slot.2 = curEpoch st) :
    st.GetCurrentBlock =
      some (slot.1, { st with current_blocknum := st.current_blocknum + 1 }) :=
  GetCurrentBlock_hit st slot hget heq

theorem c2_immediate_hit_witness :
    ((BlocksBuffer.init 2).AddBlock 0).GetCurrentBlock =
      some ((((0 : Int), (0 : Int))).1,
        { (BlocksBuffer.init 2).AddBlock 0 with
            current_blocknum := ((BlocksBuffer.init 2).AddBlock 0).current_blocknum + 1 }) :=
  c2_immediate_hit ((BlocksBuffer.init 2).AddBlock 0) ((0 : Int), (0 : Int)) rfl rfl

/-- C3: with capacity 4, submitting 0,1,2,3 and consuming four blocks
yields 0,1,2,3; then submitting 4,5,6,7 (which reuse slots 0..3 at epoch 1)
and consuming four more yields 4,5,6,7 in order: the epoch tag
disambiguates the reused slot indices across the wrap-around. -/
theorem c3_wraparound :
    consumeN (submitListN (BlocksBuffer.init 4) [0, 1, 2, 3]) 4 =
      some ([0, 1, 2, 3],
        { buffer_size := 4, buffer := [(0, 0), (1, 0), (2, 0), (3, 0)],
          current_blocknum := 4 }) ∧
    consumeN (submitListN
        { buffer_size := 4, buffer := [(0, 0), (1, 0), (2, 0), (3, 0)],
          current_blocknum := 4 } [4, 5, 6, 7]) 4 =
      some ([4, 5, 6, 7],
        { buffer_size := 4, buffer := [(4, 1), (5, 1), (6, 1), (7, 1)],
          current_blocknum := 8 }) :=
  ⟨rfl, rfl⟩

/-- C4: the claim says the slot write of an `AddBlock` whose sequence
number differs from `current_blocknum` is performed under the mutual
exclusion guarding slot reads.  The code violates this: at the failing
input (fresh buffer of capacity 100, `AddBlock(Block(1))` while
`current_blocknum = 0`) the write happens (third conjunct) but is not
performed under `current_slot_mutex` (first conjunct), even though the
sequence number differs from the cursor (second conjunct). -/
theorem c4_unsynchronized_write :
    (BlocksBuffer.init 100).addBlockSlotWriteLocked 1 = false ∧
      (1 : Int) ≠ (BlocksBuffer.init 100).current_blocknum ∧
      ((BlocksBuffer.init 100).AddBlock 1).buffer[1]? = some (1, 0) :=
  ⟨rfl, by decide, rfl⟩

/-- C6 counterexample: the claim says a negative-sequence submit is
rejected and writes no slot.  In fact `AddBlock(-1)` on a fresh buffer of
capacity 100 changes the slot at index 95 (the two's-complement wrap of
`-1` modulo 100), storing `(-1, 42949672)`. -/
theorem c6_counterexample :
    ((BlocksBuffer.init 100).AddBlock (-1)).buffer[95]? ≠
        (BlocksBuffer.init 100).buffer[95]? ∧
      ((BlocksBuffer.init 100).AddBlock (-1)).buffer[95]? = some (-1, 42949672) := by
  constructor
  · intro h
    rw [show ((BlocksBuffer.init 100).AddBlock (-1)).buffer[95]? =
        some (-1, 42949672) from rfl] at h
    rw [show (BlocksBuffer.init 100).buffer[95]? =
        some (0, -1) from rfl] at h
    exact absurd (Option.some.inj h) (by decide)
  · rfl

/-- C6 amended: `AddBlock` does not reject a negative sequence number —
there is no error path at the `submit` boundary.  The item is silently
wrapped: its sequence number is converted to the two's-complement unsigned
value `2^32 + seq`, and the slot at `(2^32 + seq) % buffer_size` is
overwritten; the cursor is untouched. -/
theorem c6_amended_silent_wrap (st : BlocksBuffer) (b : Int) (hneg : b < 0)
    (hlo : -2147483648 ≤ b) (h0 : 0 < st.buffer_size)
    (hcap : st.buffer_size ≤ 2147483648) :
    (st.AddBlock b).buffer =
        st.buffer.set (toUnsigned b % st.buffer_size) (b, cppDiv b st.buffer_size) ∧
      (st.AddBlock b).current_blocknum = st.current_blocknum ∧
      toUnsigned b = ((2 : Int) ^ 32 + b).toNat := by
  obtain ⟨-, htoNat, -⟩ := cppMod_range b st.buffer_size h0 hcap
  refine ⟨?_, rfl, ?_⟩
  · rw [AddBlock_def, htoNat]
  · unfold toUnsigned
    have hmod : b % ((uintMod : Nat) : Int) = b + 4294967296 := by
      unfold uintMod
      omega
    rw [hmod]
    omega

theorem c6_amended_silent_wrap_witness :
    ((BlocksBuffer.init 100).AddBlock (-1)).buffer =
        (BlocksBuffer.init 100).buffer.set
          (toUnsigned (-1) % (BlocksBuffer.init 100).buffer_size)
          (-1, cppDiv (-1) (BlocksBuffer.init 100).buffer_size) ∧
      ((BlocksBuffer.init 100).AddBlock (-1)).current_blocknum =
        (BlocksBuffer.init 100).current_blocknum ∧
      toUnsigned (-1) = ((2 : Int) ^ 32 + (-1)).toNat :=
  c6_amended_silent_wrap (BlocksBuffer.init 100) (-1) (by decide) (by decide)
    (by decide) (by decide)

/-- C7: for every `int` sequence number, including negative ones, the slot
index `AddBlock` computes is in `[0, buffer_size)`, because the C++
`int % unsigned` modulus first converts the sequence number to its
two's-complement unsigned value; the slot write is therefore always
in bounds. -/
theorem c7_index_in_range (st : BlocksBuffer) (b : Int) (h0 : 0 < st.buffer_size)
    (hcap : st.buffer_size ≤ 2147483648) :
    ∃ i : Nat, i < st.buffer_size ∧ i = toUnsigned b % st.buffer_size ∧
      0 ≤ cppMod b st.buffer_size ∧
      (st.AddBlock b).buffer = st.buffer.set i (b, cppDiv b st.buffer_size) := by
  obtain ⟨hpos, htoNat, hlt⟩ := cppMod_range b st.buffer_size h0 hcap
  refine ⟨(cppMod b st.buffer_size).toNat, ?_, htoNat, hpos, ?_⟩
  · rw [htoNat]; exact hlt
  · rw [AddBlock_def]

theorem c7_index_in_range_witness :
    ∃ i : Nat, i < (BlocksBuffer.init 100).buffer_size ∧
      i = toUnsigned (-7) % (BlocksBuffer.init 100).buffer_size ∧
      0 ≤ cppMod (-7) (BlocksBuffer.init 100).buffer_size ∧
      ((BlocksBuffer.init 100).AddBlock (-7)).buffer =
        (BlocksBuffer.init 100).buffer.set i
          (-7, cppDiv (-7) (BlocksBuffer.init 100).buffer_size) :=
  c7_index_in_range (BlocksBuffer.init 100) (-7) (by decide) (by decide)

/-- C1: for every `K < capacity`, submitting any permutation of the
sequence numbers `0..K` into a fresh buffer and then performing `K+1`
`GetCurrentBlock` calls succeeds (no call blocks) and returns exactly the
blocks `0, 1, …, K` in that order, each exactly once.  (`capacity` is kept
within the `int` range `≤ 2^31`, as in any real instantiation.) -/
theorem c1_in_order_delivery (cap K : Nat) (l : List Nat) (hK : K < cap)
    (hcap : cap ≤ 2147483648) (hperm : List.Perm l (List.range (K + 1))) :
    ∃ st', consumeN (submitListN (BlocksBuffer.init cap) l) (K + 1) =
      some (intsOfNats (List.range (K + 1)), st') := by
  have hmem : ∀ x ∈ l, x < (BlocksBuffer.init cap).buffer_size := by
    intro x hx
    have hx' := List.mem_range.mp (hperm.mem_iff.mp hx)
    show x < cap
    omega
  have hlen0 : (BlocksBuffer.init cap).buffer.length =
      (BlocksBuffer.init cap).buffer_size := by
    simp [BlocksBuffer.init]
  have hshape := submitListN_shape l (BlocksBuffer.init cap)
  have hcb1 : (submitListN (BlocksBuffer.init cap) l).current_blocknum =
      ((0 : Nat) : Int) := hshape.1
  have hsize1 : (submitListN (BlocksBuffer.init cap) l).buffer_size = cap := hshape.2.1
  have hlen1 : (submitListN (BlocksBuffer.init cap) l).buffer.length =
      (submitListN (BlocksBuffer.init cap) l).buffer_size := by
    rw [hshape.2.2, hsize1]
    exact hlen0
  have hslots : ∀ i : Nat, 0 ≤ i → i < 0 + (K + 1) →
      (submitListN (BlocksBuffer.init cap) l).buffer[i]? = some ((i : Int), 0) := by
    intro i _ hi
    refine submitListN_slots l (BlocksBuffer.init cap) i hmem hcap hlen0
      (by show i < cap; omega) ?_
    left
    exact hperm.mem_iff.mpr (List.mem_range.mpr (by omega))
  have hrun := consumeN_run (K + 1) (submitListN (BlocksBuffer.init cap) l) 0 hcb1 hlen1
    (by rw [hsize1]; exact hcap) (by rw [hsize1]; omega) hslots
  rw [List.range_eq_range']
  exact ⟨_, hrun⟩

theorem c1_in_order_delivery_witness :
    ∃ st', consumeN (submitListN (BlocksBuffer.init 4) [2, 0, 1]) 3 =
      some (intsOfNats (List.range 3), st') :=
  c1_in_order_delivery 4 2 [2, 0, 1] (by decide) (by decide) (by decide)

/-- C8: frame conditions of the three operations.  `AddBlock` leaves the
cursor and the capacity alone and changes no slot other than the one at
the index it computes; a successful `GetCurrentBlock` changes no slot and
not the capacity; `SetCurrentBlocknum` leaves the whole slot table and the
capacity unchanged. -/
theorem c8_frame :
    (∀ (st : BlocksBuffer) (b : Int),
      (st.AddBlock b).current_blocknum = st.current_blocknum ∧
      (st.AddBlock b).buffer_size = st.buffer_size ∧
      ∀ j : Nat, j ≠ (cppMod b st.buffer_size).toNat →
        (st.AddBlock b).buffer[j]? = st.buffer[j]?) ∧
    (∀ (st st' : BlocksBuffer) (x : Int), st.GetCurrentBlock = some (x, st') →
      st'.buffer = st.buffer ∧ st'.buffer_size = st.buffer_size) ∧
    (∀ (st : BlocksBuffer) (m : Int),
      (st.SetCurrentBlocknum m).buffer = st.buffer ∧
      (st.SetCurrentBlocknum m).buffer_size = st.buffer_size) := by
  refine ⟨?_, ?_, ?_⟩
  · intro st b
    refine ⟨rfl, rfl, fun j hj => ?_⟩
    rw [AddBlock_def]
    exact List.getElem?_set_ne fun h => hj h.symm
  · intro st st' x h
    obtain ⟨h1, h2, -⟩ := GetCurrentBlock_frame st st' x h
    exact ⟨h1, h2⟩
  · intro st m
    exact ⟨rfl, rfl⟩

theorem c8_frame_witness :
    ((BlocksBuffer.init 2).AddBlock 1).buffer[0]? = (BlocksBuffer.init 2).buffer[0]? ∧
      ({ buffer_size := 2, buffer := [((0 : Int), (0 : Int)), (0, -1)],
          current_blocknum := 1 } : BlocksBuffer).buffer =
        ((BlocksBuffer.init 2).AddBlock 0).buffer :=
  ⟨(c8_frame.1 (BlocksBuffer.init 2) 1).2.2 0 (by decide),
    (c8_frame.2.1 ((BlocksBuffer.init 2).AddBlock 0)
      { buffer_size := 2, buffer := [((0 : Int), (0 : Int)), (0, -1)],
        current_blocknum := 1 } 0 rfl).1⟩

/-- C9: starting from a fresh buffer and submitting only nonnegative
sequence numbers, every slot is either the constructor's default
`(Block(0), -1)` or the image of an actual `AddBlock` call (buffer
invariant `BufInv`); the invariant holds initially and is preserved by all
three operations.  Consequently, whenever `GetCurrentBlock`'s epoch test
succeeds with a nonnegative cursor, the slot is not the default entry: it
was written by some `AddBlock` call for a sequence number mapping to that
index. -/
theorem c9_epoch_invariant :
    (∀ cap : Nat, BufInv (BlocksBuffer.init cap)) ∧
    (∀ (st : BlocksBuffer) (b : Int), 0 ≤ b → 0 < st.buffer_size →
      st.buffer_size ≤ 2147483648 → BufInv st → BufInv (st.AddBlock b)) ∧
    (∀ (st st' : BlocksBuffer) (x : Int), BufInv st →
      st.GetCurrentBlock = some (x, st') → BufInv st') ∧
    (∀ (st : BlocksBuffer) (m : Int), BufInv st → BufInv (st.SetCurrentBlocknum m)) ∧
    (∀ (st : BlocksBuffer) (slot : Int × Int), BufInv st →
      0 ≤ st.current_blocknum → st.current_blocknum < 2147483648 →
      0 < st.buffer_size → st.buffer_size ≤ 2147483648 →
      st.buffer[(curIndex st).toNat]? = some slot → slot.2 = curEpoch st →
      slot ≠ ((0 : Int), (-1 : Int)) ∧
        ∃ s : Int, 0 ≤ s ∧ toUnsigned s % st.buffer_size = (curIndex st).toNat ∧
          slot = (s, cppDiv s st.buffer_size)) := by
  refine ⟨?_, ?_, ?_, ?_, ?_⟩
  · intro cap i slot hget
    simp only [BlocksBuffer.init, List.getElem?_replicate] at hget
    by_cases hi : i < cap
    · rw [if_pos hi] at hget
      exact Or.inl (Option.some.inj hget).symm
    · rw [if_neg hi] at hget
      exact Option.noConfusion hget
  · intro st b hb h0 hcap hinv i slot hget
    simp only [AddBlock_def] at hget
    obtain ⟨-, htoNat, -⟩ := cppMod_range b st.buffer_size h0 hcap
    by_cases hij : i = (cppMod b st.buffer_size).toNat
    · subst hij
      rw [List.getElem?_set_self'] at hget
      cases hbuf : st.buffer[(cppMod b st.buffer_size).toNat]? with
      | none =>
        rw [hbuf] at hget
        exact Option.noConfusion hget
      | some o =>
        rw [hbuf] at hget
        simp only [Option.map_eq_map, Option.map_some'] at hget
        exact Or.inr ⟨b, hb, htoNat.symm, (Option.some.inj hget).symm⟩
    · rw [List.getElem?_set_ne fun h => hij h.symm] at hget
      exact hinv i slot hget
  · intro st st' x hinv h
    obtain ⟨hbuf, hsize, -⟩ := GetCurrentBlock_frame st st' x h
    intro i slot hget
    rw [hbuf] at hget
    rw [hsize]
    exact hinv i slot hget
  · intro st m hinv
    exact hinv
  · intro st slot hinv hcb0 hcb31 h0 hcap hget heq
    have hcbn : st.current_blocknum = ((st.current_blocknum.toNat : Nat) : Int) :=
      (Int.toNat_of_nonneg hcb0).symm
    have hlt31 : st.current_blocknum.toNat < 2147483648 := by omega
    have hepo : curEpoch st = ((st.current_blocknum.toNat / st.buffer_size : Nat) : Int) := by
      have h := cppDiv_ofNat st.current_blocknum.toNat st.buffer_size hlt31
      rw [← hcbn] at h
      exact h
    have hnonneg : 0 ≤ curEpoch st := by
      rw [hepo]
      exact Int.natCast_nonneg _
    rcases hinv _ slot hget with hdef | hwr
    · exfalso
      have hm1 : curEpoch st = -1 := by rw [← heq, hdef]
      rw [hm1] at hnonneg
      exact absurd hnonneg (by norm_num)
    · refine ⟨?_, hwr⟩
      intro hcontra
      have hm1 : curEpoch st = -1 := by rw [← heq, hcontra]
      rw [hm1] at hnonneg
      exact absurd hnonneg (by norm_num)

theorem c9_epoch_invariant_witness :
    (((0 : Int), (0 : Int)) : Int × Int) ≠ ((0 : Int), (-1 : Int)) ∧
      ∃ s : Int, 0 ≤ s ∧
        toUnsigned s % ((BlocksBuffer.init 3).AddBlock 0).buffer_size =
          (curIndex ((BlocksBuffer.init 3).AddBlock 0)).toNat ∧
        (((0 : Int), (0 : Int)) : Int × Int) =
          (s, cppDiv s ((BlocksBuffer.init 3).AddBlock 0).buffer_size) := by
  have h0 := c9_epoch_invariant.1 3
  have h1 := c9_epoch_invariant.2.1 (BlocksBuffer.init 3) 0 (by decide) (by decide)
    (by decide) h0
  exact c9_epoch_invariant.2.2.2.2 ((BlocksBuffer.init 3).AddBlock 0)
    ((0 : Int), (0 : Int)) h1 (by decide) (by decide) (by decide) (by decide) rfl rfl

/-- C10: after `SetCurrentBlocknum` stores a negative cursor, the index
`GetCurrentBlock` computes is still in `[0, buffer_size)` — the `int`
cursor is first converted to its two's-complement unsigned value — so the
slot access stays in bounds; in particular with capacity 100 and cursor
`-1` the targeted index is 95 and the epoch is 42949672. -/
theorem c10_negative_cursor (st : BlocksBuffer) (m : Int) (hneg : m < 0)
    (hlo : -2147483648 ≤ m) (h0 : 0 < st.buffer_size)
    (hcap : st.buffer_size ≤ 2147483648)
    (hlen : st.buffer.length = st.buffer_size) :
    (0 ≤ curIndex (st.SetCurrentBlocknum m) ∧
      (curIndex (st.SetCurrentBlocknum m)).toNat = toUnsigned m % st.buffer_size ∧
      (curIndex (st.SetCurrentBlocknum m)).toNat < st.buffer_size ∧
      ∃ slot, (st.SetCurrentBlocknum m).buffer[(curIndex
        (st.SetCurrentBlocknum m)).toNat]? = some slot) ∧
    (st.buffer_size = 100 → m = -1 →
      curIndex (st.SetCurrentBlocknum m) = 95 ∧
        curEpoch (st.SetCurrentBlocknum m) = 42949672) := by
  have hcur : curIndex (st.SetCurrentBlocknum m) = cppMod m st.buffer_size := rfl
  obtain ⟨hpos, htoNat, hlt⟩ := cppMod_range m st.buffer_size h0 hcap
  constructor
  · refine ⟨?_, ?_, ?_, ?_⟩
    · rw [hcur]; exact hpos
    · rw [hcur]; exact htoNat
    · rw [hcur, htoNat]; exact hlt
    · have hl : (curIndex (st.SetCurrentBlocknum m)).toNat <
          (st.SetCurrentBlocknum m).buffer.length := by
        rw [hcur, htoNat]
        show toUnsigned m % st.buffer_size < st.buffer.length
        rw [hlen]
        exact hlt
      exact ⟨_, List.getElem?_eq_getElem hl⟩
  · intro hs hm
    subst hm
    constructor
    · rw [hcur, hs]
      decide
    · show cppDiv (-1) st.buffer_size = 42949672
      rw [hs]
      decide

theorem c10_negative_cursor_witness :
    curIndex ((BlocksBuffer.init 100).SetCurrentBlocknum (-1)) = 95 ∧
      curEpoch ((BlocksBuffer.init 100).SetCurrentBlocknum (-1)) = 42949672 :=
  (c10_negative_cursor (BlocksBuffer.init 100) (-1) (by decide) (by decide) (by decide)
    (by decide) rfl).2 rfl rfl

/-- C5: `SetCurrentBlocknum` stores exactly the caller-supplied value into
the cursor; and in the scenario where sequence numbers 0..4 were submitted
into a fresh buffer (capacity ≥ 5) and all five consumed, a subsequent
`SetCurrentBlocknum 2` followed by re-submitting sequence number 2 and one
`GetCurrentBlock` returns the current contents of slot 2 — the
re-submitted block 2. -/
theorem c5_reset_redelivers (cap : Nat) (out : List Int) (st5 : BlocksBuffer)
    (hcap5 : 5 ≤ cap) (hcap : cap ≤ 2147483648)
    (hrun : consumeN (submitListN (BlocksBuffer.init cap) [0, 1, 2, 3, 4]) 5 =
      some (out, st5)) :
    (∀ (st : BlocksBuffer) (m : Int), (st.SetCurrentBlocknum m).current_blocknum = m) ∧
      ∃ st' : BlocksBuffer,
        ((st5.SetCurrentBlocknum 2).AddBlock 2).GetCurrentBlock = some (2, st') := by
  refine ⟨fun st m => rfl, ?_⟩
  have hmem : ∀ x ∈ [0, 1, 2, 3, 4], x < (BlocksBuffer.init cap).buffer_size := by
    intro x hx
    show x < cap
    simp only [List.mem_cons, List.not_mem_nil, or_false] at hx
    rcases hx with rfl | rfl | rfl | rfl | rfl <;> omega
  have hlen0 : (BlocksBuffer.init cap).buffer.length =
      (BlocksBuffer.init cap).buffer_size := by
    simp [BlocksBuffer.init]
  have hshape := submitListN_shape [0, 1, 2, 3, 4] (BlocksBuffer.init cap)
  have hcb1 : (submitListN (BlocksBuffer.init cap) [0, 1, 2, 3, 4]).current_blocknum =
      ((0 : Nat) : Int) := hshape.1
  have hsize1 : (submitListN (BlocksBuffer.init cap) [0, 1, 2, 3, 4]).buffer_size = cap :=
    hshape.2.1
  have hlen1 : (submitListN (BlocksBuffer.init cap) [0, 1, 2, 3, 4]).buffer.length =
      (submitListN (BlocksBuffer.init cap) [0, 1, 2, 3, 4]).buffer_size := by
    rw [hshape.2.2, hsize1]
    exact hlen0
  have hslots : ∀ i : Nat, 0 ≤ i → i < 0 + 5 →
      (submitListN (BlocksBuffer.init cap) [0, 1, 2, 3, 4]).buffer[i]? =
        some ((i : Int), 0) := by
    intro i _ hi
    refine submitListN_slots [0, 1, 2, 3, 4] (BlocksBuffer.init cap) i hmem hcap hlen0
      (by show i < cap; omega) ?_
    left
    interval_cases i <;> simp
  have hrun' := consumeN_run 5 (submitListN (BlocksBuffer.init cap) [0, 1, 2, 3, 4]) 0
    hcb1 hlen1 (by rw [hsize1]; exact hcap) (by rw [hsize1]; omega) hslots
  rw [hrun'] at hrun
  have hst5 : st5 = { submitListN (BlocksBuffer.init cap) [0, 1, 2, 3, 4] with
      current_blocknum := ((0 : Nat) : Int) + (5 : Nat) } :=
    (congrArg Prod.snd (Option.some.inj hrun)).symm
  rw [hst5]
  -- the state after the reset: same buffer, cursor 2
  have hreset : ({ submitListN (BlocksBuffer.init cap) [0, 1, 2, 3, 4] with
      current_blocknum := ((0 : Nat) : Int) + (5 : Nat) } :
        BlocksBuffer).SetCurrentBlocknum 2 =
      { submitListN (BlocksBuffer.init cap) [0, 1, 2, 3, 4] with
        current_blocknum := (2 : Int) } := rfl
  rw [hreset]
  -- the resubmission of sequence number 2 overwrites slot 2 with (2, 0)
  have hcast2 : ((2 : Nat) : Int) = (2 : Int) := by norm_num
  have hsmall := AddBlock_small
    ({ submitListN (BlocksBuffer.init cap) [0, 1, 2, 3, 4] with
      current_blocknum := (2 : Int) } : BlocksBuffer) 2
    (by show (2 : Nat) < (submitListN (BlocksBuffer.init cap) [0, 1, 2, 3, 4]).buffer_size
        rw [hsize1]; omega)
    (by show (submitListN (BlocksBuffer.init cap) [0, 1, 2, 3, 4]).buffer_size ≤ 2147483648
        rw [hsize1]; exact hcap)
  rw [hcast2] at hsmall
  rw [hsmall]
  -- one GetCurrentBlock now hits slot 2 at epoch 0
  have hcb7 : ({ submitListN (BlocksBuffer.init cap) [0, 1, 2, 3, 4] with
      current_blocknum := (2 : Int),
      buffer := (submitListN (BlocksBuffer.init cap) [0, 1, 2, 3, 4]).buffer.set 2
        ((2 : Int), 0) } : BlocksBuffer).current_blocknum = ((2 : Nat) : Int) := by
    show (2 : Int) = ((2 : Nat) : Int)
    rw [hcast2]
  have hidx := curIndex_curEpoch_small _ 2 hcb7
    (by show (2 : Nat) < (submitListN (BlocksBuffer.init cap) [0, 1, 2, 3, 4]).buffer_size
        rw [hsize1]; omega)
    (by show (submitListN (BlocksBuffer.init cap) [0, 1, 2, 3, 4]).buffer_size ≤ 2147483648
        rw [hsize1]; exact hcap)
  have hget7 : ({ submitListN (BlocksBuffer.init cap) [0, 1, 2, 3, 4] with
      current_blocknum := (2 : Int),
      buffer := (submitListN (BlocksBuffer.init cap) [0, 1, 2, 3, 4]).buffer.set 2
        ((2 : Int), 0) } : BlocksBuffer).buffer[(curIndex
          ({ submitListN (BlocksBuffer.init cap) [0, 1, 2, 3, 4] with
            current_blocknum := (2 : Int),
            buffer := (submitListN (BlocksBuffer.init cap) [0, 1, 2, 3, 4]).buffer.set 2
              ((2 : Int), 0) } : BlocksBuffer)).toNat]? = some ((2 : Int), 0) := by
    rw [hidx.1]
    show ((submitListN (BlocksBuffer.init cap) [0, 1, 2, 3, 4]).buffer.set 2
      ((2 : Int), 0))[2]? = some ((2 : Int), 0)
    refine List.getElem?_set_self ?_
    rw [hlen1, hsize1]
    omega
  exact ⟨_, GetCurrentBlock_hit _ ((2 : Int), 0) hget7 (by rw [hidx.2])⟩

theorem c5_reset_redelivers_witness :
    ∃ st' : BlocksBuffer,
      ((({ buffer_size := 5
           buffer := [(0, 0), (1, 0), (2, 0), (3, 0), (4, 0)]
           current_blocknum := 5 } : BlocksBuffer).SetCurrentBlocknum 2).AddBlock
            2).GetCurrentBlock = some (2, st') :=
  (c5_reset_redelivers 5 [0, 1, 2, 3, 4]
    { buffer_size := 5
      buffer := [(0, 0), (1, 0), (2, 0), (3, 0), (4, 0)]
      current_blocknum := 5 } (by decide) (by decide) rfl).2
